import Mathlib

/-!
Verification development for the uk-public-spending-tracker ingestion
pipeline.  The definitions below are a shallow embedding of the Python
source files `cleaning.py`, `fetch_and_ingest.py`, `db_schema.py`
(the unique index on `hash`), `streamlit_app.py` (the supplier-dominance
query), `council_auto_discovery.py` and `councils_catalog.py`.

Modelling conventions:
* A scalar cell value reaching the cleaner (`RawValue`) is Python `None`,
  a string, a non-NaN number (as produced by pandas numeric cells,
  carried here by its `str()` rendering, with Python truthiness `value
  != 0` decided on that rendering), or `float('nan')` (a blank pandas
  cell; `str` renders it `"nan"`).  `str(None)` is the literal string
  `"None"`.
* `normalize_record`'s four plain `(x or "").strip()` fields raise
  `AttributeError` on a truthy non-string cell (NaN or a non-zero
  number); this is modelled by `Except PyErr`, threaded through
  `insert_records`, whose loop runs before the database write, so a
  raise leaves the store unchanged.
* Python `float` amounts are modelled as exact rationals `ℚ`.  The model
  of `float(s)` (`parseFloatChars`) covers finite decimal literals with
  optional sign, decimal point and exponent; inputs outside that grammar
  (such as `inf`, `nan` or underscore-grouped digits) are treated as
  unparseable.  In particular `clean_amount` on a NaN cell, where Python
  propagates `float("nan") = nan`, yields the `0.0` default here — `ℚ`
  has no NaN; no claim concerns NaN-valued amounts.
* The SQLite store is a list of rows; the unique index on `hash` together
  with `INSERT OR IGNORE` is modelled by inserting a row only when no row
  with the same hash is present, and `cursor.rowcount` by the number of
  rows actually appended.
* SHA-256 is modelled by its pre-image: `_row_hash`'s joined key string is
  represented by the tuple of business fields that is joined (`RowKey`);
  the claims use the hash only as an equality key, which the pre-image
  represents faithfully up to hash collisions.
* Network calls (`requests.get` + `raise_for_status` + `.json()`) are an
  injected function `fetch : Nat → Except ε Page`; a raised exception is
  `Except.error`.
-/

/-- A raw cell value as seen by `cleaning.py`: Python `None`, a string,
a non-NaN number (represented by its `str()` rendering `repr`), or
`float('nan')` as pandas yields for a blank cell. -/
inductive RawValue where
  | vNone : RawValue
  | vStr : String → RawValue
  | vNum : String → RawValue
  | vNaN : RawValue
deriving DecidableEq

/-- Python `str(v)` on a raw cell value: `str(None) = "None"`, a number
renders as its `repr`, `str(float('nan')) = "nan"`. -/
def strOf : RawValue → String
  | RawValue.vNone => "None"
  | RawValue.vStr s => s
  | RawValue.vNum r => r
  | RawValue.vNaN => "nan"

/-- Python truthiness-based `a or b` on optional strings: `None` and `""`
are falsy, so `a` wins exactly when it is a non-empty string. -/
def pyOrOpt (a b : Option String) : Option String :=
  match a with
  | some s => if s = "" then b else some s
  | none => b

/-- Python `str.isspace` / the character set `str.strip()` removes:
U+0009–U+000D, U+001C–U+001F, space, U+0085, U+00A0, U+1680,
U+2000–U+200A, U+2028, U+2029, U+202F, U+205F, U+3000. -/
def pyIsSpace (c : Char) : Bool :=
  let n := c.toNat
  (9 ≤ n ∧ n ≤ 13) ∨ (28 ≤ n ∧ n ≤ 32) ∨ n = 133 ∨ n = 160 ∨ n = 5760 ∨
    (8192 ≤ n ∧ n ≤ 8202) ∨ n = 8232 ∨ n = 8233 ∨ n = 8239 ∨ n = 8287 ∨ n = 12288

/-- `str.strip()` on a character list: drop whitespace from both ends. -/
def listStrip (l : List Char) : List Char :=
  ((l.dropWhile pyIsSpace).reverse.dropWhile pyIsSpace).reverse

/-- Python `s.strip()`. -/
def pyStrip (s : String) : String :=
  String.mk (listStrip s.toList)

/-- Python `s.replace(c, "")` for a one-character pattern: every
occurrence of the character is removed. -/
def removeChar (c : Char) (s : String) : String :=
  String.mk (s.toList.filter (fun d => d ≠ c))

/-- ASCII lower-casing of one character, as Python `str.lower()` acts on
the ASCII range (the only range the sources compare against). -/
def pyToLowerChar (c : Char) : Char :=
  if 'A' ≤ c ∧ c ≤ 'Z' then Char.ofNat (c.toNat + 32) else c

/-- Python `s.lower()` over ASCII strings. -/
def pyLower (s : String) : String :=
  String.mk (s.toList.map pyToLowerChar)

/-- Digit characters to their numeric value, folding a digit list. -/
def digitsToNat (ds : List Char) : Nat :=
  ds.foldl (fun acc c => acc * 10 + (c.toNat - '0'.toNat)) 0

/-- Split a character list into its leading run of digits and the rest. -/
def spanDigits (s : List Char) : List Char × List Char :=
  (s.takeWhile Char.isDigit, s.dropWhile Char.isDigit)

/-- Model of CPython `float(s)` on a stripped character list: optional
sign, then `digits`, `digits.digits?`, or `.digits`, then an optional
exponent `e|E` with optional sign and at least one digit.  Returns the
exact rational value, or `none` when the string is not of this form. -/
def parseFloatChars (s : List Char) : Option ℚ :=
  let (sign, s1) :=
    match s with
    | '+' :: rest => ((1 : Int), rest)
    | '-' :: rest => ((-1 : Int), rest)
    | _ => ((1 : Int), s)
  let (intPart, s2) := spanDigits s1
  let (fracPart, s3) :=
    match s2 with
    | '.' :: rest => spanDigits rest
    | _ => ([], s2)
  if intPart = [] ∧ fracPart = [] then none
  else
    -- exact value: sign * (intDigits.fracDigits) * 10^exponent, kept as
    -- an integer numerator over a power-of-ten denominator
    let num : Nat := digitsToNat intPart * 10 ^ fracPart.length + digitsToNat fracPart
    let den : Nat := 10 ^ fracPart.length
    match s3 with
    | [] => some (mkRat (sign * num) den)
    | 'e' :: rest =>
      (parseExp rest).map (fun p =>
        if p.1 then mkRat (sign * num) (den * 10 ^ p.2)
        else mkRat (sign * num * (10 ^ p.2 : Nat)) den)
    | 'E' :: rest =>
      (parseExp rest).map (fun p =>
        if p.1 then mkRat (sign * num) (den * 10 ^ p.2)
        else mkRat (sign * num * (10 ^ p.2 : Nat)) den)
    | _ => none
where
  /-- Exponent tail: optional sign then one or more digits, consuming the
  whole remainder; yields (negative?, absolute exponent). -/
  parseExp (s : List Char) : Option (Bool × Nat) :=
    let (eneg, s1) :=
      match s with
      | '+' :: rest => (false, rest)
      | '-' :: rest => (true, rest)
      | _ => (false, s)
    let (eds, s2) := spanDigits s1
    if eds = [] ∨ s2 ≠ [] then none
    else some (eneg, digitsToNat eds)

/-- Model of Python `float(s)` including its leading/trailing whitespace
tolerance (`float` strips before parsing). -/
def pyFloat (s : String) : Option ℚ :=
  parseFloatChars (pyStrip s).toList

/-- A raised Python exception observable by the claims;
`normalize_record` can only raise `AttributeError` (calling `.strip()`
on a non-string). -/
inductive PyErr where
  | attributeError : PyErr
deriving DecidableEq

/-- `(x or "").strip()` as `normalize_record` computes its four plain
text fields: `None`, `""` and numeric zero are falsy and give `""`;
other strings are stripped; a truthy non-string (NaN or a non-zero
number) reaches `.strip()` on a non-string and raises
`AttributeError`. -/
def strOrEmptyStrip : RawValue → Except PyErr String
  | RawValue.vNone => Except.ok ""
  | RawValue.vStr s => Except.ok (pyStrip s)
  | RawValue.vNum r =>
    if parseFloatChars r.toList = some 0 then Except.ok ""
    else Except.error PyErr.attributeError
  | RawValue.vNaN => Except.error PyErr.attributeError

/-- The cells on which `(x or "").strip()` does not raise: `None`, any
string, or a numerically zero (hence falsy) number. -/
def cellTotal : RawValue → Bool
  | RawValue.vNaN => false
  | RawValue.vNum r => parseFloatChars r.toList = some 0
  | _ => true

/-- `cleaning.clean_supplier`: `None` becomes `""`, any other value is
`str(s).strip()` (total: `str()` accepts every value). -/
def cleanSupplier : RawValue → String
  | RawValue.vNone => ""
  | RawValue.vStr s => pyStrip s
  | RawValue.vNum r => pyStrip r
  | RawValue.vNaN => pyStrip "nan"

/-- The string `clean_amount` builds before calling `float`:
`str(a).replace(",", "").replace("£", "").strip()`. -/
def amountCleaned (a : RawValue) : String :=
  pyStrip (removeChar '£' (removeChar ',' (strOf a)))

/-- `cleaning.clean_amount`: strip commas and the pound sign, return `0.0`
on empty string or parse failure, otherwise the parsed value. -/
def cleanAmount (a : RawValue) : ℚ :=
  let s := amountCleaned a
  if s = "" then 0
  else
    match parseFloatChars s.toList with
    | some q => q
    | none => 0

/-! ### Date parsing: model of `_parse_date` and `clean_date`

`datetime.strptime` is modelled by a backtracking matcher over the format
directives actually used by `_parse_date`.  CPython compiles each
directive to a regex alternation; the alternatives per directive (in
CPython's order) are: `%Y` exactly four digits; `%d` a two-digit day
01–31 then a one-digit day 1–9; `%m` a two-digit month 01–12 then a
one-digit month 1–9; `%b` a case-insensitive three-letter month
abbreviation; a literal character matches itself; whitespace in the
format matches a run of one or more whitespace characters.  The whole
string must be consumed, and `datetime(y, m, d)` validates the day
against the month length (year at least 1). -/

/-- One `strptime` format directive as used by `_parse_date`. -/
inductive FmtTok where
  | year : FmtTok
  | month : FmtTok
  | day : FmtTok
  | monthAbbr : FmtTok
  | lit : Char → FmtTok
  | ws : FmtTok
deriving DecidableEq

/-- Partially assembled date during directive matching; `strptime`
defaults month and day to 1 when the format omits them. -/
structure DateParts where
  year : Nat := 1900
  month : Nat := 1
  day : Nat := 1
deriving DecidableEq

/-- English three-letter month abbreviations, lowercase, in order. -/
def monthAbbrs : List String :=
  ["jan", "feb", "mar", "apr", "may", "jun", "jul", "aug", "sep", "oct", "nov", "dec"]

/-- Value of a two-character digit pair, if both are digits. -/
def twoDigit (c1 c2 : Char) : Option Nat :=
  if c1.isDigit ∧ c2.isDigit then some (digitsToNat [c1, c2]) else none

/-- Alternatives (in CPython regex order) for one directive on the given
input: each is an update to the date parts plus the remaining input.
Every directive offers at most two alternatives. -/
def tokAlts : FmtTok → List Char → List ((DateParts → DateParts) × List Char)
  | FmtTok.year, c1 :: c2 :: c3 :: c4 :: rest =>
    if c1.isDigit ∧ c2.isDigit ∧ c3.isDigit ∧ c4.isDigit then
      [(fun p => { p with year := digitsToNat [c1, c2, c3, c4] }, rest)]
    else []
  | FmtTok.year, _ => []
  | FmtTok.month, s =>
    let two :=
      match s with
      | c1 :: c2 :: rest =>
        match twoDigit c1 c2 with
        | some v => if 1 ≤ v ∧ v ≤ 12 then [(fun p => { p with month := v }, rest)] else []
        | none => []
      | _ => []
    let one :=
      match s with
      | c :: rest => if '1' ≤ c ∧ c ≤ '9' then [(fun p => { p with month := c.toNat - '0'.toNat }, rest)] else []
      | _ => []
    two ++ one
  | FmtTok.day, s =>
    let two :=
      match s with
      | c1 :: c2 :: rest =>
        match twoDigit c1 c2 with
        | some v => if 1 ≤ v ∧ v ≤ 31 then [(fun p => { p with day := v }, rest)] else []
        | none => []
      | _ => []
    let one :=
      match s with
      | c :: rest => if '1' ≤ c ∧ c ≤ '9' then [(fun p => { p with day := c.toNat - '0'.toNat }, rest)] else []
      | _ => []
    two ++ one
  | FmtTok.monthAbbr, c1 :: c2 :: c3 :: rest =>
    let w := String.mk [pyToLowerChar c1, pyToLowerChar c2, pyToLowerChar c3]
    match (monthAbbrs.indexOf? w) with
    | some i => [(fun p => { p with month := i + 1 }, rest)]
    | none => []
  | FmtTok.monthAbbr, _ => []
  | FmtTok.lit c, d :: rest => if d = c then [(fun p => p, rest)] else []
  | FmtTok.lit _, [] => []
  | FmtTok.ws, s =>
    let spaces := s.takeWhile pyIsSpace
    if spaces = [] then [] else [(fun p => p, s.dropWhile pyIsSpace)]

/-- Backtracking matcher for a directive list against an input, requiring
the whole input to be consumed (as `strptime` does).  Tries each
directive's alternatives in order; at most two exist per directive. -/
def matchToks : List FmtTok → List Char → Option (DateParts → DateParts)
  | [], s => if s = [] then some id else none
  | t :: ts, s =>
    match tokAlts t s with
    | [] => none
    | (f1, s1) :: more =>
      match matchToks ts s1 with
      | some g => some (fun p => g (f1 p))
      | none =>
        match more with
        | [] => none
        | (f2, s2) :: _ =>
          match matchToks ts s2 with
          | some g => some (fun p => g (f2 p))
          | none => none

/-- Leap-year rule used by `datetime` (proleptic Gregorian). -/
def isLeap (y : Nat) : Bool :=
  y % 4 = 0 ∧ (y % 100 ≠ 0 ∨ y % 400 = 0)

/-- Days in a month, as `datetime` validates them. -/
def daysInMonth (y m : Nat) : Nat :=
  if m = 2 then (if isLeap y then 29 else 28)
  else if m = 4 ∨ m = 6 ∨ m = 9 ∨ m = 11 then 30
  else 31

/-- Zero-padded decimal rendering, as `strftime` pads `%d`/`%m`. -/
def pad2 (n : Nat) : String :=
  if n < 10 then "0" ++ toString n else toString n

/-- Four-digit zero-padded year rendering for `%Y`. -/
def pad4 (n : Nat) : String :=
  if n < 10 then "000" ++ toString n
  else if n < 100 then "00" ++ toString n
  else if n < 1000 then "0" ++ toString n
  else toString n

/-- `dt.strftime("%Y-%m-%d")`. -/
def fmtISO (y m d : Nat) : String :=
  pad4 y ++ "-" ++ pad2 m ++ "-" ++ pad2 d

/-- `datetime.strptime(s, fmt)` followed by `datetime` construction:
match the directives, then validate year and day-of-month. -/
def strptimeFmt (toks : List FmtTok) (s : List Char) : Option (Nat × Nat × Nat) :=
  match matchToks toks s with
  | none => none
  | some f =>
    let p := f {}
    if 1 ≤ p.year ∧ p.year ≤ 9999 ∧ p.day ≤ daysInMonth p.year p.month then
      some (p.year, p.month, p.day)
    else none

/-- The format list of `_parse_date`, in source order:
`"%Y-%m-%d", "%d/%m/%Y", "%Y/%m/%d", "%d-%m-%Y", "%d %b %Y", "%Y-%m"`. -/
def parseDateFormats : List (List FmtTok) :=
  [ [FmtTok.year, FmtTok.lit '-', FmtTok.month, FmtTok.lit '-', FmtTok.day]
  , [FmtTok.day, FmtTok.lit '/', FmtTok.month, FmtTok.lit '/', FmtTok.year]
  , [FmtTok.year, FmtTok.lit '/', FmtTok.month, FmtTok.lit '/', FmtTok.day]
  , [FmtTok.day, FmtTok.lit '-', FmtTok.month, FmtTok.lit '-', FmtTok.year]
  , [FmtTok.day, FmtTok.ws, FmtTok.monthAbbr, FmtTok.ws, FmtTok.year]
  , [FmtTok.year, FmtTok.lit '-', FmtTok.month] ]

/-- First format that parses, rendered back to ISO. -/
def tryFormats (fmts : List (List FmtTok)) (s : List Char) : Option String :=
  match fmts with
  | [] => none
  | f :: fs =>
    match strptimeFmt f s with
    | some (y, m, d) => some (fmtISO y m d)
    | none => tryFormats fs s

/-- `cleaning._parse_date`: try the fixed format list in order on the
stripped string; fall back to a bare 4-digit year mapped to January 1;
otherwise `None`. -/
def parseDatePy (ds : String) : Option String :=
  let t := listStrip ds.toList
  match tryFormats parseDateFormats t with
  | some r => some r
  | none =>
    if t.length = 4 ∧ t.all Char.isDigit then
      some (String.mk t ++ "-01-01")
    else none

/-- The string path of `clean_date` (`ds = str(d).strip()` onwards): the
empty string maps to absent; a string that parses as a float strictly
between 35000 and 60000 (an Excel-style serial) returns the fixed base
date `1899-12-30` (the serial is never added); otherwise `_parse_date`. -/
def cleanDateStr (s : String) : Option String :=
  let ds := pyStrip s
  if ds = "" then none
  else
    match parseFloatChars ds.toList with
    | some n =>
      if 35000 < n ∧ n < 60000 then some "1899-12-30"
      else parseDatePy ds
    | none => parseDatePy ds

/-- `cleaning.clean_date` on a raw cell value: `None` maps to absent
(no `datetime` instances occur in this pipeline's cell values); every
other value goes through `str(d)` into the string path. -/
def cleanDate (d : RawValue) : Option String :=
  match d with
  | RawValue.vNone => none
  | RawValue.vStr s => cleanDateStr s
  | RawValue.vNum r => cleanDateStr r
  | RawValue.vNaN => cleanDateStr "nan"

/-- A raw record as consumed by `normalize_record`: the seven fixed keys
it reads from the row mapping (`r.get(key)` yields `None` when the key
is missing, which `RawValue.vNone` also represents). -/
structure RawRecord where
  council : RawValue
  payment_date : RawValue
  supplier : RawValue
  description : RawValue
  category : RawValue
  amount_gbp : RawValue
  invoice_ref : RawValue
deriving DecidableEq

/-- The canonical mapping produced by `normalize_record`. -/
structure NormalizedPayment where
  council : String
  payment_date : Option String
  supplier : String
  description : String
  category : String
  amount_gbp : ℚ
  invoice_ref : String
deriving DecidableEq

/-- `cleaning.normalize_record`: the four `(x or "").strip()` fields can
raise; the cleaner calls (`clean_date`, `clean_supplier`,
`clean_amount`) are total.  Python evaluates the dict literal's values
in source order; since only the four plain text fields can raise and the
single possible exception is `AttributeError`, sequencing them first
preserves the observable result exactly. -/
def normalizeRecord (r : RawRecord) : Except PyErr NormalizedPayment :=
  match strOrEmptyStrip r.council with
  | Except.error e => Except.error e
  | Except.ok council =>
    match strOrEmptyStrip r.description with
    | Except.error e => Except.error e
    | Except.ok description =>
      match strOrEmptyStrip r.category with
      | Except.error e => Except.error e
      | Except.ok category =>
        match strOrEmptyStrip r.invoice_ref with
        | Except.error e => Except.error e
        | Except.ok invoice_ref =>
          Except.ok
            { council := council
            , payment_date := cleanDate r.payment_date
            , supplier := cleanSupplier r.supplier
            , description := description
            , category := category
            , amount_gbp := cleanAmount r.amount_gbp
            , invoice_ref := invoice_ref }

/-! ### Ingestion: model of `fetch_and_ingest.insert_records`

The SQLite `payments` table with its unique index on `hash`
(`db_schema.create_tables`) is a list of rows; `INSERT OR IGNORE ...
executemany` appends each planned row whose hash is not yet present and
reports the number of appended rows (`cursor.rowcount`). -/

/-- `f"{x:.2f}"` of a float amount, modelled by the amount rounded
half-up to centipounds (an integer number of hundredths); the claims use
the rendered amount only as a component of the hash equality key. -/
def centiAmount (q : ℚ) : Int :=
  Int.fdiv (2 * (q.num * 100) + (q.den : Int)) (2 * (q.den : Int))

/-- The pre-image of `_row_hash`'s SHA-256: the tuple of business fields
joined into the hashed string.  `norm.get("payment_date", "")` retrieves
the stored optional date; Python renders `None` as the string `"None"`
when joining. -/
structure RowKey where
  council : String
  payment_date : String
  supplier : String
  description : String
  category : String
  amount2dp : Int
  invoice_ref : String
deriving DecidableEq

/-- `fetch_and_ingest._row_hash` on a normalized record. -/
def rowHash (n : NormalizedPayment) : RowKey :=
  { council := n.council
  , payment_date := match n.payment_date with | some s => s | none => "None"
  , supplier := n.supplier
  , description := n.description
  , category := n.category
  , amount2dp := centiAmount n.amount_gbp
  , invoice_ref := n.invoice_ref }

/-- One row of the `payments` table (the autoincrement id is immaterial
to the claims and omitted). -/
structure PaymentRow where
  council : String
  payment_date : String
  supplier : String
  description : String
  category : String
  amount_gbp : ℚ
  invoice_ref : String
  lat : Option ℚ
  lon : Option ℚ
  hash : RowKey
deriving DecidableEq

/-- The persistent store: the rows of `payments` in insertion order. -/
abbrev Store := List PaymentRow

/-- Python `if not norm.get("payment_date")`: `None` and `""` are falsy. -/
def dateFalsy (o : Option String) : Bool :=
  match o with
  | none => true
  | some s => s = ""

/-- The row `insert_records` plans for a normalized record that passed
the date check; `geo` is the geocoding collaborator, consulted only when
`do_geocode` is set and the supplier name is a non-empty string. -/
def mkRow (geo : String → Option (ℚ × ℚ)) (doGeocode : Bool) (n : NormalizedPayment) : PaymentRow :=
  let coords :=
    if doGeocode ∧ n.supplier ≠ "" then geo n.supplier else none
  { council := n.council
  , payment_date := match n.payment_date with | some s => s | none => ""
  , supplier := n.supplier
  , description := n.description
  , category := n.category
  , amount_gbp := n.amount_gbp
  , invoice_ref := n.invoice_ref
  , lat := coords.map Prod.fst
  , lon := coords.map Prod.snd
  , hash := rowHash n }

/-- The scan over the input records in `insert_records`: normalize each
record (an exception propagates out of the loop, before any insert),
count a record with a falsy cleaned date as skipped, and plan a row for
every other record, preserving order. -/
def planRecords (geo : String → Option (ℚ × ℚ)) (doGeocode : Bool) :
    List RawRecord → Except PyErr (List PaymentRow × Nat)
  | [] => Except.ok ([], 0)
  | r :: rs =>
    match normalizeRecord r with
    | Except.error e => Except.error e
    | Except.ok n =>
      match planRecords geo doGeocode rs with
      | Except.error e => Except.error e
      | Except.ok rest =>
        if dateFalsy n.payment_date then Except.ok (rest.1, rest.2 + 1)
        else Except.ok (mkRow geo doGeocode n :: rest.1, rest.2)

/-- `INSERT OR IGNORE` of the planned rows via `executemany`: rows are
attempted in order; a row whose hash is already present (in the store or
inserted earlier in the same batch) is ignored; returns
(`cursor.rowcount`, store after commit). -/
def bulkInsert : List PaymentRow → Store → Nat × Store
  | [], st => (0, st)
  | row :: rest, st =>
    if st.any (fun q => q.hash = row.hash) then bulkInsert rest st
    else
      ((bulkInsert rest (st ++ [row])).1 + 1, (bulkInsert rest (st ++ [row])).2)

/-- `fetch_and_ingest.insert_records`: returns
(inserted, skipped, store after the call), or the exception raised
while normalizing (the store is untouched then — the bulk insert runs
only after the whole loop). -/
def insertRecords (geo : String → Option (ℚ × ℚ)) (doGeocode : Bool)
    (records : List RawRecord) (st : Store) : Except PyErr (Nat × Nat × Store) :=
  match planRecords geo doGeocode records with
  | Except.error e => Except.error e
  | Except.ok plan =>
    if plan.1 = [] then Except.ok (0, plan.2, st)
    else Except.ok ((bulkInsert plan.1 st).1, plan.2, (bulkInsert plan.1 st).2)

/-! ### Supplier dominance: model of query 4 in
`streamlit_app.detect_fraud_indicators`

The SQL groups the selected council's payments by supplier, computes
`SUM(amount_gbp) * 100.0 / (SELECT SUM(amount_gbp) ...)` per group, keeps
groups with `HAVING percentage > 25` and orders by percentage
descending.  REAL arithmetic is modelled exactly over `ℚ`; a zero
council total makes every percentage NULL in SQLite and 0 here, and the
group is dropped either way. -/

/-- Rational sum of a list of amounts, computed through `mkRat` so that
concrete instances evaluate. -/
def ratSum (l : List ℚ) : ℚ :=
  l.foldr (fun a acc => mkRat (a.num * acc.den + acc.num * a.den) (a.den * acc.den)) 0

/-- `a * 100 / b` over `ℚ`, via integer cross-multiplication. -/
def pctOf (a b : ℚ) : ℚ :=
  Rat.divInt (a.num * 100 * (b.den : Int)) ((a.den : Int) * b.num)

/-- One payment row as seen by the dominance query (the council filter
has already been applied). -/
structure SupplierPayment where
  supplier : String
  amount : ℚ
deriving DecidableEq

/-- One output row of the dominance query. -/
structure DominanceRow where
  supplier : String
  payment_count : Nat
  total_amount : ℚ
  percentage : ℚ
deriving DecidableEq

/-- Distinct suppliers in first-appearance order (the GROUP BY keys). -/
def distinctSuppliers (ps : List SupplierPayment) : List String :=
  ps.foldl (fun acc p => if p.supplier ∈ acc then acc else acc ++ [p.supplier]) []

/-- Descending insertion by percentage (the ORDER BY). -/
def insertByPctDesc (x : DominanceRow) : List DominanceRow → List DominanceRow
  | [] => [x]
  | y :: ys => if y.percentage ≤ x.percentage then x :: y :: ys else y :: insertByPctDesc x ys

/-- Sort by percentage descending. -/
def sortByPctDesc : List DominanceRow → List DominanceRow
  | [] => []
  | x :: xs => insertByPctDesc x (sortByPctDesc xs)

/-- One GROUP BY row of the dominance query: the supplier's payment
count, summed amount, and its share of the council total as a
percentage (the correlated `SELECT SUM(amount_gbp)` subquery). -/
def groupRow (ps : List SupplierPayment) (s : String) : DominanceRow :=
  { supplier := s
  , payment_count := (ps.filter (fun p => p.supplier = s)).length
  , total_amount := ratSum ((ps.filter (fun p => p.supplier = s)).map (fun p => p.amount))
  , percentage :=
      pctOf (ratSum ((ps.filter (fun p => p.supplier = s)).map (fun p => p.amount)))
        (ratSum (ps.map (fun p => p.amount))) }

/-- The supplier-dominance query: group, aggregate, filter by
`percentage > 25`, order by percentage descending. -/
def dominantSuppliers (ps : List SupplierPayment) : List DominanceRow :=
  sortByPctDesc (((distinctSuppliers ps).map (groupRow ps)).filter
    (fun g => (25 : ℚ) < g.percentage))

/-! ### Discovery: model of
`council_auto_discovery.discover_new_councils`

The CKAN page fetch (`_page`: `requests.get` + `raise_for_status` +
`.json()`) is an injected `fetch : Nat → Except ε Page` from the `start`
offset; a network or parse failure on that page is `Except.error`.  JSON
fields that may be missing are `Option`s. -/

/-- A CKAN resource: the fields the sources read. -/
structure Resource where
  format : Option String
  url : Option String
  download_url : Option String
  name : Option String
  description : Option String
  last_modified : Option String
  created : Option String
deriving DecidableEq

/-- A CKAN package organization. -/
structure Organization where
  title : Option String
  name : Option String
deriving DecidableEq

/-- A CKAN package. -/
structure Package where
  organization : Option Organization
  title : Option String
  resources : List Resource
deriving DecidableEq

/-- One CKAN result page: the declared total `count` and the packages of
this page. -/
structure Page where
  count : Nat
  results : List Package
deriving DecidableEq

/-- The council name used by `discover_new_councils`:
`(org.get("title") or org.get("name") or "").strip() or
(pkg.get("title") or "").strip()`. -/
def discoverCouncilName (pkg : Package) : String :=
  let org := pkg.organization.getD { title := none, name := none }
  let primary :=
    pyStrip ((pyOrOpt org.title (pyOrOpt org.name (some ""))).getD "")
  if primary = "" then pyStrip ((pyOrOpt pkg.title (some "")).getD "") else primary

/-- `res.get("url") or res.get("download_url")` with Python falsiness,
then the `if not url` truthiness guard. -/
def resourceUrl (res : Resource) : Option String :=
  match pyOrOpt res.url res.download_url with
  | some u => if u = "" then none else some u
  | none => none

/-- The `(council, url)` pairs one package contributes to discovery:
resources whose `str(format).lower()` is `"csv"` (no strip here, unlike
the catalog) and whose url is truthy. -/
def discoverPairsOfPackage (pkg : Package) : List (String × String) :=
  let council := discoverCouncilName pkg
  pkg.resources.filterMap (fun res =>
    if pyLower (res.format.getD "") = "csv" then
      (resourceUrl res).map (fun u => (council, u))
    else none)

/-- `_unique` / the final pair de-duplication: keep the first occurrence
of each element, preserving order (`seen` set plus output list). -/
def uniqueAux {α : Type} [DecidableEq α] (seen : List α) : List α → List α
  | [] => []
  | x :: xs => if x ∈ seen then uniqueAux seen xs else x :: uniqueAux (x :: seen) xs

/-- First-occurrence de-duplication, as `_unique` and the discovery
tail both implement it. -/
def uniqueList {α : Type} [DecidableEq α] (l : List α) : List α :=
  uniqueAux [] l

/-- Equality of `Except` results is decidable componentwise. -/
instance {ε α : Type} [DecidableEq ε] [DecidableEq α] : DecidableEq (Except ε α) := fun a b =>
  match a, b with
  | Except.error e, Except.error f => decidable_of_iff (e = f) (by simp)
  | Except.error _, Except.ok _ => Decidable.isFalse (by simp)
  | Except.ok _, Except.error _ => Decidable.isFalse (by simp)
  | Except.ok x, Except.ok y => decidable_of_iff (x = y) (by simp)

/-- The paging loop of `discover_new_councils`, with the page budget
(`max_pages`) as fuel.  `total` is `None` until the first page reports
its count; an empty page or reaching the declared total ends the loop;
the gathered pairs are de-duplicated on every exit path (the function's
single trailing de-duplication). -/
def discoverLoop {ε : Type} (fetch : Nat → Except ε Page) (rows : Nat) :
    Nat → Nat → Option Nat → List (String × String) → Except ε (List (String × String))
  | 0, _, _, pairs => Except.ok (uniqueList pairs)
  | fuel + 1, start, total, pairs =>
    match fetch start with
    | Except.error e => Except.error e
    | Except.ok page =>
      let tot := total.getD page.count
      if page.results = [] then Except.ok (uniqueList pairs)
      else
        let pairs2 := pairs ++ (page.results.map discoverPairsOfPackage).flatten
        let start2 := start + rows
        if tot ≤ start2 then Except.ok (uniqueList pairs2)
        else discoverLoop fetch rows fuel start2 (some tot) pairs2

/-- `discover_new_councils(max_pages, rows_per_page)`. -/
def discoverNewCouncils {ε : Type} (fetch : Nat → Except ε Page)
    (maxPages rows : Nat) : Except ε (List (String × String)) :=
  discoverLoop fetch rows maxPages 0 none []

/-! ### Catalog: model of `councils_catalog.build_catalog`

The catalog is a Python dict council name → entry, modelled as an
association list in insertion order (`setdefault` appends a fresh entry
at the end).  `_page_search` is the same injected `fetch` shape as in
discovery; the JSON cache write is file I/O outside the model. -/

/-- `councils_catalog._is_csv`:
`str(res.get("format", "")).strip().lower() == "csv"`. -/
def isCsvRes (res : Resource) : Bool :=
  pyLower (pyStrip (res.format.getD "")) = "csv"

/-- `councils_catalog._publisher_name`. -/
def publisherName (pkg : Package) : String :=
  let org := pkg.organization.getD { title := none, name := none }
  pyStrip ((pyOrOpt org.title (pyOrOpt org.name (some ""))).getD "")

/-- `councils_catalog._council_name`: publisher title, else the dataset
title's prefix before the first dash, else "Unknown publisher". -/
def councilName (pkg : Package) : String :=
  let pub := publisherName pkg
  if pub ≠ "" then pub
  else
    let title := pyStrip (pkg.title.getD "")
    if title ≠ "" then pyStrip (((title.splitOn "-").headD "")) else "Unknown publisher"

/-- A kept (CSV) resource entry as `build_catalog` records it. -/
structure KeptResource where
  name : String
  url : String
  format : String
  last_modified : String
deriving DecidableEq

/-- The per-resource filter body of `build_catalog`: keep a resource iff
`_is_csv` holds and its url (`url` or `download_url`) is truthy. -/
def keepCsvResource (res : Resource) : Option KeptResource :=
  if isCsvRes res then
    match resourceUrl res with
    | none => none
    | some u =>
      some { name := (pyOrOpt res.name (pyOrOpt res.description (some "CSV"))).getD "CSV"
           , url := u
           , format := "CSV"
           , last_modified := (pyOrOpt res.last_modified (pyOrOpt res.created (some ""))).getD "" }
  else none

/-- One dataset block appended to a catalog entry. -/
structure CatalogDataset where
  dataset_title : String
  publisher : String
  resources : List KeptResource
deriving DecidableEq

/-- One catalog entry. -/
structure CatalogEntry where
  datasets : List CatalogDataset
  csv_urls : List String
deriving DecidableEq

/-- The catalog under construction: insertion-ordered association list. -/
abbrev Catalog := List (String × CatalogEntry)

/-- `catalog.setdefault(council, ...)` followed by appending the dataset
and extending the flattened url list. -/
def updateCatalog : Catalog → String → CatalogDataset → List String → Catalog
  | [], council, ds, urls => [(council, { datasets := [ds], csv_urls := urls })]
  | (k, e) :: rest, council, ds, urls =>
    if k = council then
      (k, { datasets := e.datasets ++ [ds], csv_urls := e.csv_urls ++ urls }) :: rest
    else (k, e) :: updateCatalog rest council ds urls

/-- The per-package body of `build_catalog`'s loop: filter CSV resources,
skip the package when none remain, otherwise record the dataset and
extend the council's url list. -/
def processPackage (pkg : Package) (cat : Catalog) : Catalog :=
  let kept := pkg.resources.filterMap keepCsvResource
  if kept = [] then cat
  else
    updateCatalog cat (councilName pkg)
      { dataset_title := pyStrip (pkg.title.getD "")
      , publisher := publisherName pkg
      , resources := kept }
      (kept.map (fun r => r.url))

/-- All packages of a page, in order. -/
def processPackages (pkgs : List Package) (cat : Catalog) : Catalog :=
  pkgs.foldl (fun c p => processPackage p c) cat

/-- The paging loop of `build_catalog` (fuel = `max_pages`), returning
the raw catalog before url de-duplication. -/
def buildLoop {ε : Type} (fetch : Nat → Except ε Page) (rows : Nat) :
    Nat → Nat → Option Nat → Catalog → Except ε Catalog
  | 0, _, _, cat => Except.ok cat
  | fuel + 1, start, total, cat =>
    match fetch start with
    | Except.error e => Except.error e
    | Except.ok page =>
      let tot := total.getD page.count
      if page.results = [] then Except.ok cat
      else
        let cat2 := processPackages page.results cat
        let start2 := start + rows
        if tot ≤ start2 then Except.ok cat2
        else buildLoop fetch rows fuel start2 (some tot) cat2

/-- The final pass of `build_catalog`: de-duplicate each entry's
flattened url list with `_unique`. -/
def finalizeCatalog (cat : Catalog) : Catalog :=
  cat.map (fun ke => (ke.1, { ke.2 with csv_urls := uniqueList ke.2.csv_urls }))

/-- `councils_catalog.build_catalog(max_pages, rows_per_page)`. -/
def buildCatalog {ε : Type} (fetch : Nat → Except ε Page)
    (maxPages rows : Nat) : Except ε Catalog :=
  (buildLoop fetch rows maxPages 0 none []).map finalizeCatalog

/-! ## Claims -/

/-- Geocoder stub: coordinates are never found (geocoding is disabled in
all claim scenarios anyway). -/
def geoNone : String → Option (ℚ × ℚ) := fun _ => none

/-- A fully populated raw record with a parseable date, the concrete
input for the duplicate-ingestion scenario. -/
def rIdem : RawRecord :=
  { council := RawValue.vStr "Testshire"
  , payment_date := RawValue.vStr "2024-03-01"
  , supplier := RawValue.vStr "Acme Ltd"
  , description := RawValue.vStr "Road works"
  , category := RawValue.vStr "Highways"
  , amount_gbp := RawValue.vStr "£1,234.50"
  , invoice_ref := RawValue.vStr "INV-1" }

/-- The normalized form of `rIdem`. -/
def nIdem : NormalizedPayment :=
  { council := "Testshire"
  , payment_date := some "2024-03-01"
  , supplier := "Acme Ltd"
  , description := "Road works"
  , category := "Highways"
  , amount_gbp := mkRat 2469 2
  , invoice_ref := "INV-1" }

/-- The store after `rIdem` is first inserted: its single planned row. -/
def storeIdem : Store := [mkRow geoNone false nIdem]

/-- C1: inserting the same raw record twice starting from an empty store
inserts it exactly once and leaves exactly one row with its hash, but the
duplicate is NOT counted as skipped: the two calls return
(inserted=1, skipped=0) then (inserted=0, skipped=0), because `skipped`
only counts records without a parsable date while `INSERT OR IGNORE`
silently drops the duplicate — contradicting the docstring's "skipped
includes duplicates" and the claimed `inserted=1, skipped=1` total. -/
theorem insert_records_duplicate_not_counted :
    normalizeRecord rIdem = Except.ok nIdem ∧
    insertRecords geoNone false [rIdem] [] = Except.ok (1, 0, storeIdem) ∧
    insertRecords geoNone false [rIdem] storeIdem = Except.ok (0, 0, storeIdem) ∧
    (storeIdem.filter (fun q => q.hash = rowHash nIdem)).length = 1 := by
  decide

/-- A successfully normalized record's date is `clean_date` of its raw
date cell. -/
lemma payment_date_of_ok (r : RawRecord) (n : NormalizedPayment)
    (h : normalizeRecord r = Except.ok n) :
    n.payment_date = cleanDate r.payment_date := by
  unfold normalizeRecord at h
  cases h1 : strOrEmptyStrip r.council with
  | error e => simp only [h1] at h; exact Except.noConfusion h
  | ok c1 =>
    simp only [h1] at h
    cases h2 : strOrEmptyStrip r.description with
    | error e => simp only [h2] at h; exact Except.noConfusion h
    | ok c2 =>
      simp only [h2] at h
      cases h3 : strOrEmptyStrip r.category with
      | error e => simp only [h3] at h; exact Except.noConfusion h
      | ok c3 =>
        simp only [h3] at h
        cases h4 : strOrEmptyStrip r.invoice_ref with
        | error e => simp only [h4] at h; exact Except.noConfusion h
        | ok c4 =>
          simp only [h4] at h
          injection h with h5
          rw [← h5]

/-- Removing one dateless, successfully-normalizing record from a batch
leaves the planned rows (or the propagated exception) unchanged and
lowers the skipped count by one. -/
lemma planRecords_drop_dateless (geo : String → Option (ℚ × ℚ)) (doG : Bool)
    (pre post : List RawRecord) (r : RawRecord) (n : NormalizedPayment)
    (hn : normalizeRecord r = Except.ok n) (hd : dateFalsy n.payment_date = true) :
    planRecords geo doG (pre ++ r :: post) =
      (planRecords geo doG (pre ++ post)).map (fun t => (t.1, t.2 + 1)) := by
  induction pre with
  | nil =>
    simp only [List.nil_append, planRecords, hn]
    cases hrec : planRecords geo doG post with
    | error e => simp [Except.map]
    | ok rest => simp [Except.map, hd]
  | cons p ps ih =>
    cases hp : normalizeRecord p with
    | error e => simp [planRecords, hp, Except.map]
    | ok np =>
      simp only [List.cons_append, planRecords, hp, List.append_eq]
      rw [ih]
      cases hrec : planRecords geo doG (ps ++ post) with
      | error e => simp [Except.map]
      | ok rest =>
        by_cases hdp : dateFalsy np.payment_date = true
        · simp [Except.map, hdp]
        · simp [Except.map, hdp]

/-- A record that raises during normalization aborts the whole scan with
its exception, provided the records before it normalize. -/
lemma planRecords_error (geo : String → Option (ℚ × ℚ)) (doG : Bool)
    (pre post : List RawRecord) (r : RawRecord) (e : PyErr)
    (hpre : ∀ p ∈ pre, ∃ np, normalizeRecord p = Except.ok np)
    (hr : normalizeRecord r = Except.error e) :
    planRecords geo doG (pre ++ r :: post) = Except.error e := by
  induction pre with
  | nil => simp [planRecords, hr]
  | cons p ps ih =>
    obtain ⟨np, hnp⟩ := hpre p (List.mem_cons_self _ _)
    have hps : ∀ q ∈ ps, ∃ nq, normalizeRecord q = Except.ok nq :=
      fun q hq => hpre q (List.mem_cons_of_mem _ hq)
    simp only [List.cons_append, planRecords, hnp, List.append_eq]
    rw [ih hps]

/-- A concrete dateless record with a NaN (blank pandas cell)
description. -/
def rNaNDesc : RawRecord :=
  { council := RawValue.vStr "Testshire"
  , payment_date := RawValue.vStr "not a date"
  , supplier := RawValue.vStr "Acme Ltd"
  , description := RawValue.vNaN
  , category := RawValue.vNone
  , amount_gbp := RawValue.vStr "10"
  , invoice_ref := RawValue.vNone }

/-- Counterexample to C2 as stated: this dateless record is NOT counted
in the skipped count — `insert_records` raises `AttributeError` while
normalizing its NaN description (`(x or "").strip()` on a non-string)
instead of returning `(0, 1, store)`. -/
theorem insert_records_dateless_counter :
    cleanDate rNaNDesc.payment_date = none ∧
    insertRecords geoNone false [rNaNDesc] [] = Except.error PyErr.attributeError ∧
    insertRecords geoNone false [rNaNDesc] [] ≠ Except.ok (0, 1, []) := by
  decide

/-- C2 (amended): a record whose date cleans to absent is never
inserted; when it normalizes without raising it is always counted as
skipped — wherever it sits in the batch, the result is that of the
batch without it with skipped one higher — but a record whose
council/description/category/invoice_ref cell is a truthy non-string
(NaN or a non-zero number) makes the whole call raise instead, counting
and inserting nothing. -/
theorem insert_records_rejects_dateless :
    (∀ (geo : String → Option (ℚ × ℚ)) (doG : Bool) (pre post : List RawRecord)
       (r : RawRecord) (st : Store) (n : NormalizedPayment),
       normalizeRecord r = Except.ok n → cleanDate r.payment_date = none →
       insertRecords geo doG (pre ++ r :: post) st =
         (insertRecords geo doG (pre ++ post) st).map
           (fun t => (t.1, t.2.1 + 1, t.2.2))) ∧
    (∀ (geo : String → Option (ℚ × ℚ)) (doG : Bool) (pre post : List RawRecord)
       (r : RawRecord) (st : Store) (e : PyErr),
       (∀ p ∈ pre, ∃ np, normalizeRecord p = Except.ok np) →
       normalizeRecord r = Except.error e →
       insertRecords geo doG (pre ++ r :: post) st = Except.error e) := by
  constructor
  · intro geo doG pre post r st n hn h
    have hd : dateFalsy n.payment_date = true := by
      rw [payment_date_of_ok r n hn, h]
      rfl
    rw [insertRecords, insertRecords,
      planRecords_drop_dateless geo doG pre post r n hn hd]
    cases hrec : planRecords geo doG (pre ++ post) with
    | error e => simp [Except.map]
    | ok plan =>
      by_cases hnil : plan.1 = []
      · simp [Except.map, hnil]
      · simp [Except.map, hnil]
  · intro geo doG pre post r st e hpre hr
    rw [insertRecords, planRecords_error geo doG pre post r e hpre hr]

/-- A concrete record whose date cannot be parsed. -/
def rBadDate : RawRecord :=
  { council := RawValue.vStr "Testshire"
  , payment_date := RawValue.vStr "not a date"
  , supplier := RawValue.vStr "Acme Ltd"
  , description := RawValue.vNone
  , category := RawValue.vNone
  , amount_gbp := RawValue.vStr "10"
  , invoice_ref := RawValue.vNone }

/-- The normalized form of `rBadDate`. -/
def nBadDate : NormalizedPayment :=
  { council := "Testshire", payment_date := none, supplier := "Acme Ltd"
  , description := "", category := "", amount_gbp := 10, invoice_ref := "" }

/-- Witness for C2's amended claim at concrete records: the dateless
all-safe record is counted as skipped with nothing inserted, and the
NaN-description record makes the call raise. -/
theorem insert_records_rejects_dateless_w :
    normalizeRecord rBadDate = Except.ok nBadDate ∧
    cleanDate rBadDate.payment_date = none ∧
    insertRecords geoNone false ([] ++ rBadDate :: []) [] =
      (insertRecords geoNone false ([] ++ []) []).map
        (fun t => (t.1, t.2.1 + 1, t.2.2)) ∧
    normalizeRecord rNaNDesc = Except.error PyErr.attributeError ∧
    insertRecords geoNone false ([] ++ rNaNDesc :: []) [] =
      Except.error PyErr.attributeError :=
  ⟨by decide, by decide,
   insert_records_rejects_dateless.1 geoNone false [] [] rBadDate [] nBadDate
     (by decide) (by decide),
   by decide,
   insert_records_rejects_dateless.2 geoNone false [] [] rNaNDesc []
     PyErr.attributeError (fun p hp => absurd hp (List.not_mem_nil p)) (by decide)⟩

/-- C3: `clean_date` resolves all four slash/dash variants of 1 March
2024 to ISO "2024-03-01" (ISO first, then UK day-first), maps the bare
year "2024" to "2024-01-01", and returns absent on "not a date". -/
theorem clean_date_formats :
    cleanDate (RawValue.vStr "2024-03-01") = some "2024-03-01" ∧
    cleanDate (RawValue.vStr "01/03/2024") = some "2024-03-01" ∧
    cleanDate (RawValue.vStr "2024/03/01") = some "2024-03-01" ∧
    cleanDate (RawValue.vStr "01-03-2024") = some "2024-03-01" ∧
    cleanDate (RawValue.vStr "2024") = some "2024-01-01" ∧
    cleanDate (RawValue.vStr "not a date") = none := by
  decide

/-- A text cell on which `(x or "").strip()` succeeds is a total cell. -/
lemma strOrEmptyStrip_eq_ok (v : RawValue) (c : String)
    (h : strOrEmptyStrip v = Except.ok c) : cellTotal v = true := by
  cases v with
  | vNone => rfl
  | vStr s => rfl
  | vNum r =>
    by_cases hz : parseFloatChars r.toList = some 0
    · simp only [cellTotal]
      exact decide_eq_true hz
    · rw [strOrEmptyStrip, if_neg hz] at h
      exact Except.noConfusion h
  | vNaN => exact Except.noConfusion h

/-- A total text cell makes `(x or "").strip()` succeed. -/
lemma cellTotal_ok (v : RawValue) (h : cellTotal v = true) :
    ∃ c, strOrEmptyStrip v = Except.ok c := by
  cases v with
  | vNone => exact ⟨"", rfl⟩
  | vStr s => exact ⟨pyStrip s, rfl⟩
  | vNum r =>
    have hz : parseFloatChars r.toList = some 0 := by
      have := h
      simp only [cellTotal] at this
      exact of_decide_eq_true this
    exact ⟨"", by rw [strOrEmptyStrip, if_pos hz]⟩
  | vNaN => exact absurd h (by simp [cellTotal])

/-- A raw record with a non-zero numeric (hence truthy, non-string)
description cell. -/
def rNumDesc : RawRecord :=
  { council := RawValue.vStr "Testshire"
  , payment_date := RawValue.vStr "2024-03-01"
  , supplier := RawValue.vStr "Acme Ltd"
  , description := RawValue.vNum "1.5"
  , category := RawValue.vNone
  , amount_gbp := RawValue.vStr "10"
  , invoice_ref := RawValue.vNone }

/-- Counterexample to C4 as stated: on a record whose description cell
is the number 1.5 — squarely in the claim's "string/number/blank"
domain — `normalize_record` raises `AttributeError`
(`(x or "").strip()` on a float) instead of degrading to a default. -/
theorem normalize_record_counter :
    normalizeRecord rNumDesc = Except.error PyErr.attributeError := by
  decide

/-- C4 (amended): `normalize_record` returns a complete canonical
mapping with safe defaults (empty string / absent date / `0.0`) for
missing or unparseable fields, and it succeeds exactly when each of the
four plain text cells (council, description, category, invoice_ref) is
None, a string, or a falsy zero number; a truthy non-string cell (NaN
or a non-zero number) makes it raise `AttributeError` instead. -/
theorem normalize_record_defaults (r : RawRecord) :
    (∀ n : NormalizedPayment, normalizeRecord r = Except.ok n →
      (r.council = RawValue.vNone → n.council = "") ∧
      (r.payment_date = RawValue.vNone → n.payment_date = none) ∧
      (r.supplier = RawValue.vNone → n.supplier = "") ∧
      (r.description = RawValue.vNone → n.description = "") ∧
      (r.category = RawValue.vNone → n.category = "") ∧
      (r.invoice_ref = RawValue.vNone → n.invoice_ref = "") ∧
      (parseFloatChars (amountCleaned r.amount_gbp).toList = none →
        n.amount_gbp = 0)) ∧
    ((cellTotal r.council = true ∧ cellTotal r.description = true ∧
      cellTotal r.category = true ∧ cellTotal r.invoice_ref = true) ↔
      ∃ n, normalizeRecord r = Except.ok n) := by
  constructor
  · intro n hn
    unfold normalizeRecord at hn
    cases h1 : strOrEmptyStrip r.council with
    | error e => simp only [h1] at hn; exact Except.noConfusion hn
    | ok c1 =>
      simp only [h1] at hn
      cases h2 : strOrEmptyStrip r.description with
      | error e => simp only [h2] at hn; exact Except.noConfusion hn
      | ok c2 =>
        simp only [h2] at hn
        cases h3 : strOrEmptyStrip r.category with
        | error e => simp only [h3] at hn; exact Except.noConfusion hn
        | ok c3 =>
          simp only [h3] at hn
          cases h4 : strOrEmptyStrip r.invoice_ref with
          | error e => simp only [h4] at hn; exact Except.noConfusion hn
          | ok c4 =>
            simp only [h4] at hn
            injection hn with h5
            subst h5
            refine ⟨?_, ?_, ?_, ?_, ?_, ?_, ?_⟩ <;> intro h
            · rw [h] at h1
              injection h1 with h6
              exact h6.symm
            · show cleanDate r.payment_date = none
              rw [h]
              rfl
            · show cleanSupplier r.supplier = ""
              rw [h]
              rfl
            · rw [h] at h2
              injection h2 with h6
              exact h6.symm
            · rw [h] at h3
              injection h3 with h6
              exact h6.symm
            · rw [h] at h4
              injection h4 with h6
              exact h6.symm
            · show cleanAmount r.amount_gbp = 0
              have hd : parseFloatChars (amountCleaned r.amount_gbp).data = none := h
              by_cases he : amountCleaned r.amount_gbp = ""
              · simp [cleanAmount, he]
              · simp [cleanAmount, he, hd]
  · constructor
    · rintro ⟨t1, t2, t3, t4⟩
      obtain ⟨c1, h1⟩ := cellTotal_ok _ t1
      obtain ⟨c2, h2⟩ := cellTotal_ok _ t2
      obtain ⟨c3, h3⟩ := cellTotal_ok _ t3
      obtain ⟨c4, h4⟩ := cellTotal_ok _ t4
      refine ⟨{ council := c1
              , payment_date := cleanDate r.payment_date
              , supplier := cleanSupplier r.supplier
              , description := c2
              , category := c3
              , amount_gbp := cleanAmount r.amount_gbp
              , invoice_ref := c4 }, ?_⟩
      unfold normalizeRecord
      rw [h1, h2, h3, h4]
    · rintro ⟨n, hn⟩
      unfold normalizeRecord at hn
      cases h1 : strOrEmptyStrip r.council with
      | error e => simp only [h1] at hn; exact Except.noConfusion hn
      | ok c1 =>
        simp only [h1] at hn
        cases h2 : strOrEmptyStrip r.description with
        | error e => simp only [h2] at hn; exact Except.noConfusion hn
        | ok c2 =>
          simp only [h2] at hn
          cases h3 : strOrEmptyStrip r.category with
          | error e => simp only [h3] at hn; exact Except.noConfusion hn
          | ok c3 =>
            simp only [h3] at hn
            cases h4 : strOrEmptyStrip r.invoice_ref with
            | error e => simp only [h4] at hn; exact Except.noConfusion hn
            | ok c4 =>
              exact ⟨strOrEmptyStrip_eq_ok _ _ h1, strOrEmptyStrip_eq_ok _ _ h2,
                strOrEmptyStrip_eq_ok _ _ h3, strOrEmptyStrip_eq_ok _ _ h4⟩

/-- A raw record with every field missing. -/
def rAllNone : RawRecord :=
  { council := RawValue.vNone, payment_date := RawValue.vNone
  , supplier := RawValue.vNone, description := RawValue.vNone
  , category := RawValue.vNone, amount_gbp := RawValue.vNone
  , invoice_ref := RawValue.vNone }

/-- The normalized form of the all-missing record: every safe default. -/
def nAllNone : NormalizedPayment :=
  { council := "", payment_date := none, supplier := "", description := ""
  , category := "", amount_gbp := 0, invoice_ref := "" }

/-- Witness for C4 on the all-missing record: normalization succeeds and
every field is its safe default. -/
theorem normalize_record_defaults_w :
    normalizeRecord rAllNone = Except.ok nAllNone ∧
    nAllNone.council = "" ∧ nAllNone.payment_date = none ∧
    nAllNone.supplier = "" ∧ nAllNone.description = "" ∧
    nAllNone.category = "" ∧ nAllNone.invoice_ref = "" ∧
    nAllNone.amount_gbp = 0 := by
  have h := (normalize_record_defaults rAllNone).1 nAllNone (by decide)
  exact ⟨by decide, h.1 rfl, h.2.1 rfl, h.2.2.1 rfl, h.2.2.2.1 rfl,
    h.2.2.2.2.1 rfl, h.2.2.2.2.2.1 rfl, h.2.2.2.2.2.2 (by decide)⟩

/-- C5: `clean_amount` strips the pound sign and thousands separators —
"£1,234.50" yields exactly 1234.50 (= 2469/2) — and more generally
returns the parsed value of the stripped string whenever it parses, and
`0.0` whenever the stripped string is empty or unparseable (e.g. "",
"N/A"). -/
theorem clean_amount_spec :
    cleanAmount (RawValue.vStr "£1,234.50") = mkRat 2469 2 ∧
    cleanAmount (RawValue.vStr "") = 0 ∧
    cleanAmount (RawValue.vStr "N/A") = 0 ∧
    (∀ a q, parseFloatChars (amountCleaned a).toList = some q → cleanAmount a = q) ∧
    (∀ a, parseFloatChars (amountCleaned a).toList = none → cleanAmount a = 0) := by
  refine ⟨by decide, by decide, by decide, ?_, ?_⟩
  · intro a q h
    by_cases he : amountCleaned a = ""
    · rw [he] at h
      exact Option.noConfusion h
    · have h2 : parseFloatChars (amountCleaned a).data = some q := h
      simp [cleanAmount, he, h2]
  · intro a h
    by_cases he : amountCleaned a = ""
    · simp [cleanAmount, he]
    · have h2 : parseFloatChars (amountCleaned a).data = none := h
      simp [cleanAmount, he, h2]

/-- Witness for C5's quantified parts at the concrete input
"£1,234.50". -/
theorem clean_amount_spec_w :
    parseFloatChars (amountCleaned (RawValue.vStr "£1,234.50")).toList = some (mkRat 2469 2) ∧
    cleanAmount (RawValue.vStr "£1,234.50") = mkRat 2469 2 :=
  ⟨by decide,
   clean_amount_spec.2.2.2.1 (RawValue.vStr "£1,234.50") (mkRat 2469 2) (by decide)⟩

/-- Membership is preserved by the descending insertion. -/
lemma mem_insertByPctDesc (x y : DominanceRow) (l : List DominanceRow) :
    y ∈ insertByPctDesc x l ↔ y = x ∨ y ∈ l := by
  induction l with
  | nil => simp [insertByPctDesc]
  | cons a as ih =>
    by_cases hc : a.percentage ≤ x.percentage
    · simp [insertByPctDesc, hc]
    · simp [insertByPctDesc, hc, ih]
      tauto

/-- Membership is preserved by the percentage sort. -/
lemma mem_sortByPctDesc (y : DominanceRow) (l : List DominanceRow) :
    y ∈ sortByPctDesc l ↔ y ∈ l := by
  induction l with
  | nil => simp [sortByPctDesc]
  | cons a as ih => simp [sortByPctDesc, mem_insertByPctDesc, ih]

/-- Counterexample to C6 as stated: with payments A=300, B=700 the
query flags supplier A at 30% — a share not exceeding 50% — and returns
two entries, not a single top entry. -/
theorem dominance_counter :
    dominantSuppliers [⟨"A", 300⟩, ⟨"B", 700⟩] =
      [⟨"B", 1, 700, 70⟩, ⟨"A", 1, 300, 30⟩] ∧
    (30 : ℚ) ≤ 50 ∧
    (dominantSuppliers [⟨"A", 300⟩, ⟨"B", 700⟩]).length ≠ 1 := by
  decide

/-- Descending insertion keeps the list sorted by percentage. -/
lemma pairwise_insertByPctDesc (x : DominanceRow) (l : List DominanceRow)
    (h : List.Pairwise (fun a b => b.percentage ≤ a.percentage) l) :
    List.Pairwise (fun a b => b.percentage ≤ a.percentage) (insertByPctDesc x l) := by
  induction l with
  | nil => simp [insertByPctDesc]
  | cons y ys ih =>
    have hy := (List.pairwise_cons.mp h).1
    have hys := (List.pairwise_cons.mp h).2
    by_cases hc : y.percentage ≤ x.percentage
    · rw [insertByPctDesc, if_pos hc]
      refine List.pairwise_cons.mpr ⟨?_, h⟩
      intro z hz
      rcases List.mem_cons.mp hz with h1 | h1
      · rw [h1]
        exact hc
      · exact le_trans (hy z h1) hc
    · rw [insertByPctDesc, if_neg hc]
      refine List.pairwise_cons.mpr ⟨?_, ih hys⟩
      intro z hz
      rcases (mem_insertByPctDesc x z ys).mp hz with h1 | h1
      · rw [h1]
        exact le_of_not_le hc
      · exact hy z h1

/-- The percentage sort produces a descending list. -/
lemma pairwise_sortByPctDesc (l : List DominanceRow) :
    List.Pairwise (fun a b => b.percentage ≤ a.percentage) (sortByPctDesc l) := by
  induction l with
  | nil => simp [sortByPctDesc]
  | cons x xs ih => exact pairwise_insertByPctDesc x (sortByPctDesc xs) ih

/-- C6 (amended): the dominance query flags exactly the suppliers whose
share of the council total exceeds 25% (not 50%): every flagged row is
such a supplier's group row, every distinct supplier over 25% is
flagged, and the output is ordered by percentage descending — not a
single top entry; for a council with total spend 1000 where one
supplier accounts for 600, that supplier is flagged at 60%. -/
theorem dominance_flags_over_25 :
    (∀ ps row, row ∈ dominantSuppliers ps →
      (25 : ℚ) < row.percentage ∧ row.supplier ∈ distinctSuppliers ps ∧
      row = groupRow ps row.supplier) ∧
    (∀ ps s, s ∈ distinctSuppliers ps → (25 : ℚ) < (groupRow ps s).percentage →
      groupRow ps s ∈ dominantSuppliers ps) ∧
    (∀ ps, List.Pairwise (fun a b => b.percentage ≤ a.percentage)
      (dominantSuppliers ps)) ∧
    dominantSuppliers [⟨"S", 600⟩, ⟨"T", 400⟩] =
      [⟨"S", 1, 600, 60⟩, ⟨"T", 1, 400, 40⟩] := by
  refine ⟨?_, ?_, ?_, by decide⟩
  · intro ps row hrow
    unfold dominantSuppliers at hrow
    rw [mem_sortByPctDesc] at hrow
    obtain ⟨hm, hp⟩ := List.mem_filter.mp hrow
    obtain ⟨s, hs, heq⟩ := List.mem_map.mp hm
    have hsup : row.supplier = s := by
      rw [← heq]
      rfl
    refine ⟨of_decide_eq_true hp, ?_, ?_⟩
    · rw [hsup]
      exact hs
    · rw [hsup]
      exact heq.symm
  · intro ps s hs hp
    unfold dominantSuppliers
    rw [mem_sortByPctDesc]
    exact List.mem_filter.mpr ⟨List.mem_map_of_mem (groupRow ps) hs, decide_eq_true hp⟩
  · intro ps
    unfold dominantSuppliers
    exact pairwise_sortByPctDesc _

/-- Witness for C6's amended parts at the 600/400 example: supplier "S"
is a distinct supplier with share 60% > 25%, its group row is flagged,
and the flagged row satisfies the soundness conjunct. -/
theorem dominance_flags_over_25_w :
    "S" ∈ distinctSuppliers [⟨"S", 600⟩, ⟨"T", 400⟩] ∧
    (25 : ℚ) < (groupRow [⟨"S", 600⟩, ⟨"T", 400⟩] "S").percentage ∧
    groupRow [⟨"S", 600⟩, ⟨"T", 400⟩] "S" ∈
      dominantSuppliers [⟨"S", 600⟩, ⟨"T", 400⟩] :=
  ⟨by decide, by decide,
   dominance_flags_over_25.2.1 [⟨"S", 600⟩, ⟨"T", 400⟩] "S" (by decide) (by decide)⟩

/-- A package carrying one CSV resource, for the discovery scenarios. -/
def pkgDisc : Package :=
  { organization := some { title := some "Borough Council", name := some "borough" }
  , title := some "Payments to suppliers"
  , resources := [{ format := some "CSV", url := some "http://u", download_url := none
                  , name := none, description := none, last_modified := none
                  , created := none }] }

/-- A fetch function whose first page succeeds (declaring 3 total
results) and whose second page raises. -/
def fetchAbort : Nat → Except String Page := fun start =>
  if start = 0 then Except.ok { count := 3, results := [pkgDisc] }
  else Except.error "network error"

/-- Counterexample to C7 as stated: with one good page followed by a
failing page, discovery propagates the failure and aborts — it does not
return the pair gathered from the good page. -/
theorem discover_counter :
    discoverNewCouncils fetchAbort 20 1 = Except.error "network error" ∧
    discoverNewCouncils fetchAbort 20 1 ≠
      Except.ok [("Borough Council", "http://u")] := by
  decide

/-- C7 (amended): a network or parse failure on the page being fetched
aborts the whole discovery run — the paging loop propagates the error,
and no pairs (not even those gathered from earlier pages) are
returned. -/
theorem discover_page_failure_aborts {ε : Type} (fetch : Nat → Except ε Page)
    (rows fuel start : Nat) (total : Option Nat) (pairs : List (String × String)) (e : ε)
    (hfuel : 0 < fuel) (herr : fetch start = Except.error e) :
    discoverLoop fetch rows fuel start total pairs = Except.error e := by
  cases fuel with
  | zero => exact absurd hfuel (by omega)
  | succ n => simp only [discoverLoop, herr]

/-- Witness for C7's amended claim: the loop at the failing offset of
the concrete scenario returns the error even with pairs in hand. -/
theorem discover_page_failure_aborts_w :
    0 < 1 ∧ fetchAbort 1 = Except.error "network error" ∧
    discoverLoop fetchAbort 1 1 1 (some 3) [("Borough Council", "http://u")] =
      Except.error "network error" :=
  ⟨by decide, by decide,
   discover_page_failure_aborts fetchAbort 1 1 1 (some 3)
     [("Borough Council", "http://u")] "network error" (by decide) (by decide)⟩

/-- Counterexample to C8 as stated: internal whitespace runs survive
`clean_supplier`; the doubled spaces inside "Acme   Ltd" are not
collapsed. -/
theorem clean_supplier_counter :
    cleanSupplier (RawValue.vStr "  Acme   Ltd ") = "Acme   Ltd" ∧
    cleanSupplier (RawValue.vStr "  Acme   Ltd ") ≠ "Acme Ltd" := by
  decide

/-- Every element a `takeWhile` keeps satisfies its predicate. -/
lemma all_takeWhile {α : Type} (p : α → Bool) (l : List α) :
    (l.takeWhile p).all p = true := by
  rw [List.all_eq_true]
  intro x hx
  exact List.mem_takeWhile_imp hx

/-- `listStrip` removes exactly a whitespace prefix and a whitespace
suffix: the input splits as whitespace ++ stripped ++ whitespace. -/
lemma listStrip_decomp (l : List Char) :
    ∃ pre suf, l = pre ++ listStrip l ++ suf ∧
      pre.all pyIsSpace ∧ suf.all pyIsSpace := by
  refine ⟨l.takeWhile pyIsSpace,
    ((l.dropWhile pyIsSpace).reverse.takeWhile pyIsSpace).reverse, ?_, ?_, ?_⟩
  · conv_lhs => rw [← List.takeWhile_append_dropWhile (p := pyIsSpace) (l := l)]
    rw [List.append_assoc]
    congr 1
    calc l.dropWhile pyIsSpace
        = (l.dropWhile pyIsSpace).reverse.reverse := (List.reverse_reverse _).symm
      _ = (((l.dropWhile pyIsSpace).reverse.takeWhile pyIsSpace) ++
            ((l.dropWhile pyIsSpace).reverse.dropWhile pyIsSpace)).reverse := by
            rw [List.takeWhile_append_dropWhile]
      _ = listStrip l ++ ((l.dropWhile pyIsSpace).reverse.takeWhile pyIsSpace).reverse := by
            rw [List.reverse_append]
            rfl
  · exact all_takeWhile pyIsSpace l
  · rw [List.all_reverse]
    exact all_takeWhile pyIsSpace _

/-- The head of a `dropWhile` result fails the predicate. -/
lemma head_dropWhile_not {α : Type} (p : α → Bool) :
    ∀ (l : List α) (c : α), (l.dropWhile p).head? = some c → p c = false := by
  intro l
  induction l with
  | nil =>
    intro c h
    exact Option.noConfusion h
  | cons x xs ih =>
    intro c h
    by_cases hx : p x = true
    · rw [List.dropWhile_cons, if_pos hx] at h
      exact ih c h
    · rw [List.dropWhile_cons, if_neg hx] at h
      injection h with h2
      rw [← h2]
      exact Bool.eq_false_iff.mpr hx

/-- `dropWhile` removes only a prefix, so a non-empty result keeps the
input's last element. -/
lemma getLast_dropWhile_of_ne_nil {α : Type} (p : α → Bool) (l : List α)
    (h : l.dropWhile p ≠ []) : (l.dropWhile p).getLast? = l.getLast? := by
  conv_rhs => rw [← List.takeWhile_append_dropWhile (p := p) (l := l)]
  rw [List.getLast?_append_of_ne_nil _ h]

/-- The stripped list never starts with whitespace. -/
lemma head_listStrip_not_space (l : List Char) (c : Char)
    (h : (listStrip l).head? = some c) : pyIsSpace c = false := by
  rw [listStrip, List.head?_reverse] at h
  have hne : (l.dropWhile pyIsSpace).reverse.dropWhile pyIsSpace ≠ [] := by
    intro hnil
    rw [hnil] at h
    exact Option.noConfusion h
  rw [getLast_dropWhile_of_ne_nil pyIsSpace _ hne, List.getLast?_reverse] at h
  exact head_dropWhile_not pyIsSpace l c h

/-- The stripped list never ends with whitespace. -/
lemma getLast_listStrip_not_space (l : List Char) (c : Char)
    (h : (listStrip l).getLast? = some c) : pyIsSpace c = false := by
  rw [listStrip, List.getLast?_reverse] at h
  exact head_dropWhile_not pyIsSpace _ c h

/-- C8 (amended): `clean_supplier` maps None to the empty string and,
for every string input, returns exactly the input trimmed of leading
and trailing whitespace: the input splits as a whitespace prefix, the
result, and a whitespace suffix, and the result itself neither starts
nor ends with whitespace (so the removed runs are maximal).  Internal
whitespace runs are preserved, not collapsed: "  Acme   Ltd " becomes
"Acme   Ltd"; the non-ASCII whitespace U+00A0 is stripped too. -/
theorem clean_supplier_trims :
    cleanSupplier RawValue.vNone = "" ∧
    (∀ s : String,
      (∃ pre suf : List Char,
        s.toList = pre ++ (cleanSupplier (RawValue.vStr s)).toList ++ suf ∧
        pre.all pyIsSpace ∧ suf.all pyIsSpace) ∧
      (∀ c, (cleanSupplier (RawValue.vStr s)).toList.head? = some c →
        pyIsSpace c = false) ∧
      (∀ c, (cleanSupplier (RawValue.vStr s)).toList.getLast? = some c →
        pyIsSpace c = false)) ∧
    cleanSupplier (RawValue.vStr "  Acme   Ltd ") = "Acme   Ltd" ∧
    cleanSupplier (RawValue.vStr " Acme ") = "Acme" := by
  refine ⟨rfl, ?_, by decide, by decide⟩
  intro s
  have he : (cleanSupplier (RawValue.vStr s)).toList = listStrip s.toList := rfl
  rw [he]
  exact ⟨listStrip_decomp s.toList,
    fun c hc => head_listStrip_not_space s.toList c hc,
    fun c hc => getLast_listStrip_not_space s.toList c hc⟩

/-- Witness for C8's amended maximality parts: on " Acme " the result
starts with 'A' and ends with 'e', neither of which is whitespace. -/
theorem clean_supplier_trims_w :
    (cleanSupplier (RawValue.vStr " Acme ")).toList.head? = some 'A' ∧
    pyIsSpace 'A' = false ∧
    (cleanSupplier (RawValue.vStr " Acme ")).toList.getLast? = some 'e' ∧
    pyIsSpace 'e' = false :=
  ⟨by decide, (clean_supplier_trims.2.1 " Acme ").2.1 'A' (by decide),
   by decide, (clean_supplier_trims.2.1 " Acme ").2.2 'e' (by decide)⟩

/-- C9: any string parsing as a float strictly between 35000 and 60000
makes `clean_date` return the constant "1899-12-30": the Excel-serial
branch never adds the serial offset to its base date. -/
theorem clean_date_excel_serial (s : String) (q : ℚ)
    (h : pyFloat s = some q) (h1 : 35000 < q) (h2 : q < 60000) :
    cleanDate (RawValue.vStr s) = some "1899-12-30" := by
  have hne : ¬ (pyStrip s = "") := by
    intro he
    have h0 : pyFloat s = none := by
      rw [pyFloat, he]
      rfl
    rw [h0] at h
    exact Option.noConfusion h
  have hp : parseFloatChars (pyStrip s).toList = some q := h
  show cleanDateStr s = some "1899-12-30"
  simp only [cleanDateStr]
  rw [if_neg hne, hp]
  simp [h1, h2]

/-- Witness for C9 at the concrete serial "45000". -/
theorem clean_date_excel_serial_w :
    pyFloat "45000" = some (mkRat 45000 1) ∧
    (35000 : ℚ) < mkRat 45000 1 ∧ mkRat 45000 1 < 60000 ∧
    cleanDate (RawValue.vStr "45000") = some "1899-12-30" :=
  ⟨by decide, by decide, by decide,
   clean_date_excel_serial "45000" (mkRat 45000 1) (by decide) (by decide) (by decide)⟩

/-- A kept resource passed `_is_csv` and contributed its truthy url. -/
lemma keepCsvResource_spec (res : Resource) (kr : KeptResource)
    (h : keepCsvResource res = some kr) :
    isCsvRes res = true ∧ resourceUrl res = some kr.url := by
  unfold keepCsvResource at h
  by_cases hc : isCsvRes res = true
  · refine ⟨hc, ?_⟩
    rw [if_pos hc] at h
    cases hu : resourceUrl res with
    | none => rw [hu] at h; exact Option.noConfusion h
    | some u =>
      rw [hu] at h
      injection h with h2
      rw [← h2]
  · rw [if_neg hc] at h
    exact Option.noConfusion h

/-- Provenance of a url: it is the url of a CSV-format resource of a
package on a successfully fetched page. -/
def FromCsv {ε : Type} (fetch : Nat → Except ε Page) (u : String) : Prop :=
  ∃ start page pkg res, fetch start = Except.ok page ∧ pkg ∈ page.results ∧
    res ∈ pkg.resources ∧ isCsvRes res = true ∧ resourceUrl res = some u

/-- A package that appears on some successfully fetched page. -/
def PkgFetched {ε : Type} (fetch : Nat → Except ε Page) (pkg : Package) : Prop :=
  ∃ start page, fetch start = Except.ok page ∧ pkg ∈ page.results

/-- Invariant: every entry has a non-empty url list whose urls all come
from fetched CSV resources. -/
def GoodCat {ε : Type} (fetch : Nat → Except ε Page) (cat : Catalog) : Prop :=
  ∀ ke ∈ cat, ke.2.csv_urls ≠ [] ∧ ∀ u ∈ ke.2.csv_urls, FromCsv fetch u

/-- `updateCatalog` preserves the invariant when the added urls are
non-empty and all have CSV provenance. -/
lemma updateCatalog_good {ε : Type} (fetch : Nat → Except ε Page)
    (council : String) (ds : CatalogDataset) (urls : List String)
    (hne : urls ≠ []) (hu : ∀ u ∈ urls, FromCsv fetch u) :
    ∀ cat : Catalog, GoodCat fetch cat →
      GoodCat fetch (updateCatalog cat council ds urls) := by
  intro cat
  induction cat with
  | nil =>
    intro _ ke hke
    simp only [updateCatalog, List.mem_singleton] at hke
    subst hke
    exact ⟨hne, hu⟩
  | cons kv rest ih =>
    obtain ⟨k, e⟩ := kv
    intro hcat
    have hrest : GoodCat fetch rest := fun ke hke => hcat ke (List.mem_cons_of_mem _ hke)
    have hhead := hcat (k, e) (List.mem_cons_self _ _)
    intro ke hke
    by_cases hk : k = council
    · rw [updateCatalog, if_pos hk] at hke
      rcases List.mem_cons.mp hke with h1 | h2
      · subst h1
        refine ⟨fun happ => hne (List.append_eq_nil.mp happ).2, ?_⟩
        intro u hu2
        rcases List.mem_append.mp hu2 with h3 | h4
        · exact hhead.2 u h3
        · exact hu u h4
      · exact hrest ke h2
    · rw [updateCatalog, if_neg hk] at hke
      rcases List.mem_cons.mp hke with h1 | h2
      · subst h1
        exact hhead
      · exact ih hrest ke h2

/-- `processPackage` preserves the invariant for a fetched package. -/
lemma processPackage_good {ε : Type} (fetch : Nat → Except ε Page)
    (pkg : Package) (cat : Catalog)
    (hpkg : PkgFetched fetch pkg) (hcat : GoodCat fetch cat) :
    GoodCat fetch (processPackage pkg cat) := by
  unfold processPackage
  by_cases hk : pkg.resources.filterMap keepCsvResource = []
  · rw [if_pos hk]
    exact hcat
  · rw [if_neg hk]
    apply updateCatalog_good fetch _ _ _ ?_ ?_ cat hcat
    · intro hmap
      exact hk (List.map_eq_nil_iff.mp hmap)
    · intro u hu
      rcases List.mem_map.mp hu with ⟨kr, hkr, hurl⟩
      rcases List.mem_filterMap.mp hkr with ⟨res, hres, hkeep⟩
      obtain ⟨hcsv, hurl2⟩ := keepCsvResource_spec res kr hkeep
      obtain ⟨start, page, hfetch, hmem⟩ := hpkg
      exact ⟨start, page, pkg, res, hfetch, hmem, hres, hcsv, by rw [hurl2, hurl]⟩

/-- `processPackages` preserves the invariant when every package of the
page was fetched. -/
lemma processPackages_good {ε : Type} (fetch : Nat → Except ε Page) :
    ∀ (pkgs : List Package) (cat : Catalog),
      (∀ p ∈ pkgs, PkgFetched fetch p) → GoodCat fetch cat →
      GoodCat fetch (processPackages pkgs cat) := by
  intro pkgs
  induction pkgs with
  | nil =>
    intro cat _ hcat
    exact hcat
  | cons p ps ih =>
    intro cat hall hcat
    have h1 : PkgFetched fetch p := hall p (List.mem_cons_self _ _)
    have h2 : ∀ q ∈ ps, PkgFetched fetch q := fun q hq => hall q (List.mem_cons_of_mem _ hq)
    exact ih (processPackage p cat) h2 (processPackage_good fetch p cat h1 hcat)

/-- The paging loop preserves the invariant on every successful exit. -/
lemma buildLoop_good {ε : Type} (fetch : Nat → Except ε Page) (rows : Nat) :
    ∀ (fuel start : Nat) (total : Option Nat) (cat catF : Catalog),
      buildLoop fetch rows fuel start total cat = Except.ok catF →
      GoodCat fetch cat → GoodCat fetch catF := by
  intro fuel
  induction fuel with
  | zero =>
    intro start total cat catF h hcat
    simp only [buildLoop] at h
    injection h with h2
    subst h2
    exact hcat
  | succ n ih =>
    intro start total cat catF h hcat
    simp only [buildLoop] at h
    cases hfe : fetch start with
    | error e =>
      rw [hfe] at h
      exact Except.noConfusion h
    | ok page =>
      rw [hfe] at h
      simp only at h
      have hall : ∀ p ∈ page.results, PkgFetched fetch p :=
        fun p hp => ⟨start, page, hfe, hp⟩
      by_cases hres : page.results = []
      · rw [if_pos hres] at h
        injection h with h2
        subst h2
        exact hcat
      · rw [if_neg hres] at h
        have hcat2 := processPackages_good fetch page.results cat hall hcat
        by_cases htot : total.getD page.count ≤ start + rows
        · rw [if_pos htot] at h
          injection h with h2
          subst h2
          exact hcat2
        · rw [if_neg htot] at h
          exact ih _ _ _ _ h hcat2

/-- `uniqueAux` keeps exactly the elements of its input not yet seen. -/
lemma mem_uniqueAux {α : Type} [DecidableEq α] (a : α) :
    ∀ (l seen : List α), a ∈ uniqueAux seen l ↔ a ∈ l ∧ a ∉ seen := by
  intro l
  induction l with
  | nil =>
    intro seen
    simp [uniqueAux]
  | cons x xs ih =>
    intro seen
    by_cases hx : x ∈ seen
    · rw [uniqueAux, if_pos hx, ih]
      constructor
      · rintro ⟨h1, h2⟩
        exact ⟨List.mem_cons_of_mem _ h1, h2⟩
      · rintro ⟨h1, h2⟩
        rcases List.mem_cons.mp h1 with h3 | h3
        · subst h3
          exact absurd hx h2
        · exact ⟨h3, h2⟩
    · rw [uniqueAux, if_neg hx]
      constructor
      · intro hmem
        rcases List.mem_cons.mp hmem with h3 | h3
        · subst h3
          exact ⟨List.mem_cons_self _ _, hx⟩
        · rw [ih] at h3
          exact ⟨List.mem_cons_of_mem _ h3.1,
            fun hs => h3.2 (List.mem_cons_of_mem _ hs)⟩
      · rintro ⟨h1, h2⟩
        by_cases hax : a = x
        · subst hax
          exact List.mem_cons_self _ _
        · have h3 : a ∈ xs := by
            rcases List.mem_cons.mp h1 with h4 | h4
            · exact absurd h4 hax
            · exact h4
          apply List.mem_cons_of_mem
          rw [ih]
          refine ⟨h3, fun hs => ?_⟩
          rcases List.mem_cons.mp hs with h4 | h4
          · exact hax h4
          · exact h2 h4

/-- `uniqueAux` yields a duplicate-free list. -/
lemma nodup_uniqueAux {α : Type} [DecidableEq α] :
    ∀ (l seen : List α), (uniqueAux seen l).Nodup := by
  intro l
  induction l with
  | nil =>
    intro seen
    simp [uniqueAux]
  | cons x xs ih =>
    intro seen
    by_cases hx : x ∈ seen
    · rw [uniqueAux, if_pos hx]
      exact ih seen
    · rw [uniqueAux, if_neg hx]
      refine List.nodup_cons.mpr ⟨?_, ih (x :: seen)⟩
      intro hmem
      rw [mem_uniqueAux] at hmem
      exact hmem.2 (List.mem_cons_self _ _)

/-- `uniqueAux` preserves the input's order: it is a sublist. -/
lemma sublist_uniqueAux {α : Type} [DecidableEq α] :
    ∀ (l seen : List α), List.Sublist (uniqueAux seen l) l := by
  intro l
  induction l with
  | nil =>
    intro seen
    simp [uniqueAux]
  | cons x xs ih =>
    intro seen
    by_cases hx : x ∈ seen
    · rw [uniqueAux, if_pos hx]
      exact List.Sublist.cons x (ih seen)
    · rw [uniqueAux, if_neg hx]
      exact List.Sublist.cons₂ x (ih (x :: seen))

/-- `uniqueList` keeps exactly the elements of its input. -/
lemma mem_uniqueList {α : Type} [DecidableEq α] (a : α) (l : List α) :
    a ∈ uniqueList l ↔ a ∈ l := by
  rw [uniqueList, mem_uniqueAux]
  simp

/-- `uniqueList` of a non-empty list is non-empty. -/
lemma uniqueList_ne_nil {α : Type} [DecidableEq α] (l : List α) (h : l ≠ []) :
    uniqueList l ≠ [] := by
  cases l with
  | nil => exact absurd rfl h
  | cons x xs => simp [uniqueList, uniqueAux]

/-- C10: every council entry of a successfully built catalog has a
non-empty `csv_urls` list (packages with no kept CSV resource are
skipped), the list is duplicate-free, and each url is the url of a
resource whose declared format is CSV (case-insensitively, after
stripping) on a fetched page; moreover the de-duplication `_unique`
preserves first-seen order — its output is a sublist of its input with
exactly the input's elements. -/
theorem build_catalog_csv_urls {ε : Type} (fetch : Nat → Except ε Page)
    (maxPages rows : Nat) (cat : Catalog)
    (h : buildCatalog fetch maxPages rows = Except.ok cat) :
    (∀ ke ∈ cat, ke.2.csv_urls ≠ [] ∧ ke.2.csv_urls.Nodup ∧
      ∀ u ∈ ke.2.csv_urls, FromCsv fetch u) ∧
    (∀ l : List String, List.Sublist (uniqueList l) l ∧ ∀ u, u ∈ uniqueList l ↔ u ∈ l) := by
  constructor
  · unfold buildCatalog at h
    cases hb : buildLoop fetch rows maxPages 0 none [] with
    | error e =>
      rw [hb] at h
      exact Except.noConfusion h
    | ok catRaw =>
      rw [hb] at h
      have hcat : finalizeCatalog catRaw = cat := by
        simpa [Except.map] using h
      have hgood : GoodCat fetch catRaw :=
        buildLoop_good fetch rows maxPages 0 none [] catRaw hb
          (fun ke hke => absurd hke (List.not_mem_nil ke))
      intro ke hke
      rw [← hcat] at hke
      rcases List.mem_map.mp hke with ⟨ke0, hke0, hmap⟩
      obtain ⟨hne, hfrom⟩ := hgood ke0 hke0
      rw [← hmap]
      refine ⟨uniqueList_ne_nil _ hne, nodup_uniqueAux _ _, ?_⟩
      intro u hu
      rw [mem_uniqueList] at hu
      exact hfrom u hu
  · intro l
    exact ⟨sublist_uniqueAux l [], fun u => mem_uniqueList u l⟩

/-- A package with two CSV resources (one format needing strip/lowercase,
one duplicate url) and one non-CSV resource. -/
def pkgCatalog : Package :=
  { organization := some { title := some "Borough Council", name := some "borough" }
  , title := some "Payments to suppliers"
  , resources :=
    [ { format := some " csv ", url := some "http://u", download_url := none
      , name := none, description := none, last_modified := none, created := none }
    , { format := some "XLS", url := some "http://x", download_url := none
      , name := none, description := none, last_modified := none, created := none }
    , { format := some "CSV", url := some "http://u", download_url := none
      , name := some "Spend", description := none, last_modified := some "2024"
      , created := none } ] }

/-- A fetch that always returns the same single-package page. -/
def fetchCatalog : Nat → Except String Page := fun _ =>
  Except.ok { count := 1, results := [pkgCatalog] }

/-- The catalog entry `build_catalog` produces for `pkgCatalog`. -/
def entryCatalog : CatalogEntry :=
  { datasets :=
      [ { dataset_title := "Payments to suppliers"
        , publisher := "Borough Council"
        , resources :=
          [ { name := "CSV", url := "http://u", format := "CSV", last_modified := "" }
          , { name := "Spend", url := "http://u", format := "CSV"
            , last_modified := "2024" } ] } ]
  , csv_urls := ["http://u"] }

/-- The finalized catalog for the concrete run. -/
def catCatalog : Catalog := [("Borough Council", entryCatalog)]

/-- Witness for C10 on the concrete run: the single entry has a
non-empty, duplicate-free url list and its url has CSV provenance. -/
theorem build_catalog_csv_urls_w :
    buildCatalog fetchCatalog 10 1000 = Except.ok catCatalog ∧
    entryCatalog.csv_urls ≠ [] ∧ entryCatalog.csv_urls.Nodup ∧
    FromCsv fetchCatalog "http://u" := by
  have hmain := build_catalog_csv_urls fetchCatalog 10 1000 catCatalog (by decide)
  have h1 := hmain.1 ("Borough Council", entryCatalog) (by decide)
  exact ⟨by decide, h1.1, h1.2.1, h1.2.2 "http://u" (by decide)⟩
